import Mathlib

/-!
Shallow embedding of the opencode-comments-plugin repository:
the pending-call tracker and hook integration (src/unnamed/part_000),
the binary resolver and check invoker (src/unnamed/part_001), and
the downloader (src/src/downloader.ts).  JavaScript `Map` objects are
modelled as association lists with unique keys, millisecond timestamps
as `Int`, and the event-loop steps of the async resolver as an explicit
state machine.
-/

/-- `PendingCall` from src/src/types.ts: one in-flight mutating operation. -/
structure PendingCall where
  filePath : String
  content : Option String
  oldString : Option String
  newString : Option String
  edits : Option (List (String × String))
  tool : String
  sessionID : String
  timestamp : Int
deriving DecidableEq, Repr

/-- The `pendingCalls` map of part_000, modelled as an association list. -/
abbrev PendingMap : Type := List (String × PendingCall)

/-- `PENDING_CALL_TTL = 60_000` from part_000 line 20. -/
def PENDING_CALL_TTL : Int := 60000

/-- JS `Map.set`: insert or overwrite the entry for `k`. -/
def mapSet (m : PendingMap) (k : String) (v : PendingCall) : PendingMap :=
  (k, v) :: List.filter (fun e => e.1 != k) m

/-- JS `Map.delete`: remove the entry for `k`. -/
def mapDelete (m : PendingMap) (k : String) : PendingMap :=
  List.filter (fun e => e.1 != k) m

/-- The get-then-delete pattern of the after-hook (part_000 lines 88-93):
retrieve the entry for `k` and remove it, or report absence. -/
def mapTake (m : PendingMap) (k : String) : Option PendingCall × PendingMap :=
  match List.lookup k m with
  | some v => (some v, mapDelete m k)
  | none => (none, m)

/-- `cleanupOldPendingCalls` from part_000 lines 25-32: delete every
entry whose age at `now` strictly exceeds `PENDING_CALL_TTL`. -/
def cleanupOldPendingCalls (now : Int) (m : PendingMap) : PendingMap :=
  List.filter (fun e => !(decide (now - e.2.timestamp > PENDING_CALL_TTL))) m

/-- `CheckResult` from src/src/types.ts. -/
structure CheckResult where
  hasComments : Bool
  message : String
deriving DecidableEq, Repr

/-- JS `String.prototype.toLowerCase`, character by character. -/
def strToLower (s : String) : String := ⟨s.data.map Char.toLower⟩

/-- List-level Boolean prefix test, structurally recursive. -/
def listStartsWith : List Char → List Char → Bool
  | _, [] => true
  | [], _ :: _ => false
  | a :: as, b :: bs => a == b && listStartsWith as bs

/-- JS `String.prototype.startsWith`. -/
def strStartsWith (s pre : String) : Bool := listStartsWith s.data pre.data

/-- JS `String.prototype.includes`: `pat` occurs as a substring of `s`. -/
def strIncludes (s pat : String) : Bool :=
  (List.range (s.data.length + 1)).any
    (fun i => List.take pat.data.length (List.drop i s.data) == pat.data)

/-- The tool-failure test of the after-hook (part_000 lines 95-97): the
lowercased output starts with the token "error" or contains one of the
`OUTPUT_FAILURE_PATTERNS` (a fixed list of strings from the constants
module, abstracted here as the parameter `patterns`). -/
def isToolFailure (patterns : List String) (out : String) : Bool :=
  strStartsWith (strToLower out) "error" ||
    patterns.any (fun pat => strIncludes (strToLower out) pat)

/-- Result of one `tool.execute.after` invocation: the pending-call map
afterwards, the (possibly appended-to) tool output, and whether the
comment checker subprocess was invoked. -/
structure AfterResult where
  pending : PendingMap
  newOutput : String
  invokedChecker : Bool

/-- `tool.execute.after` from part_000 lines 84-133.  `cliPath` is the
awaited value of `cliPathPromise`, `existsF` models `existsSync`, and
`checker` models `runCommentChecker` applied to the hook payload built
from the pending call.  A falsy `cliPath` (absent or empty string) or a
non-existing path skips the check. -/
def afterHook (patterns : List String) (cliPath : Option String)
    (existsF : String → Bool) (checker : PendingCall → CheckResult)
    (m : PendingMap) (callID : String) (out : String) : AfterResult :=
  match List.lookup callID m with
  | none => ⟨m, out, false⟩
  | some pc =>
    let m1 := mapDelete m callID
    if isToolFailure patterns out then ⟨m1, out, false⟩
    else
      match cliPath with
      | none => ⟨m1, out, false⟩
      | some p =>
        if p.isEmpty || !existsF p then ⟨m1, out, false⟩
        else
          let r := checker pc
          if r.hasComments && !(r.message == "") then
            ⟨m1, out ++ "\n\n" ++ r.message, true⟩
          else ⟨m1, out, true⟩

/-- The mutation arguments delivered to the before-hook
(`output.args` in part_000 lines 62-66), with both camel-case and
snake-case spellings of each key. -/
structure ToolCallArgs where
  filePath : Option String
  file_path : Option String
  path : Option String
  content : Option String
  oldString : Option String
  old_string : Option String
  newString : Option String
  new_string : Option String
  edits : Option (List (String × String))

/-- `tool.execute.before` from part_000 lines 56-83.  `toolNames` is the
`TOOL_NAMES` set from the constants module, abstracted as a parameter.
The coalesced file path is falsy (absent or empty) exactly when the JS
guard `if (!filePath)` fires and nothing is recorded. -/
def beforeHook (toolNames : List String) (m : PendingMap)
    (tool sessionID callID : String) (args : ToolCallArgs) (now : Int) :
    PendingMap :=
  let toolLower := strToLower tool
  if !(toolNames.contains toolLower) then m
  else
    match (args.filePath.orElse fun _ => args.file_path).orElse
        fun _ => args.path with
    | none => m
    | some fp =>
      if fp.isEmpty then m
      else
        mapSet m callID
          { filePath := fp
            content := args.content
            oldString := args.oldString.orElse fun _ => args.old_string
            newString := args.newString.orElse fun _ => args.new_string
            edits := args.edits
            tool := toolLower
            sessionID := sessionID
            timestamp := now }

/-- Outcome of the `spawn` call in `runCommentChecker`: either spawning
throws, or the subprocess exits with a code and captured streams. -/
inductive SpawnOutcome where
  | spawnError
  | exited (exitCode : Int) (stdoutText stderrText : String)
deriving DecidableEq, Repr

/-- `runCommentChecker` from part_001 lines 104-155.  The binary path is
the nullish coalescing `options.cliPath ?? resolvedCliPath ??
getCommentCheckerPathSync()`; `existsF` models `existsSync`; `sp` is the
outcome of spawning the subprocess. -/
def runCommentChecker (optCliPath resolvedCliPath syncPath : Option String)
    (existsF : String → Bool) (sp : SpawnOutcome) : CheckResult :=
  let binaryPath :=
    (optCliPath.orElse fun _ => resolvedCliPath).orElse fun _ => syncPath
  match binaryPath with
  | none => ⟨false, ""⟩
  | some p =>
    if !existsF p then ⟨false, ""⟩
    else
      match sp with
      | .spawnError => ⟨false, ""⟩
      | .exited code _ stderrText =>
        if code = 0 then ⟨false, ""⟩
        else if code = 2 then ⟨true, stderrText⟩
        else ⟨false, ""⟩

/-- The check-invoker contract stated from the spec's words: absent path,
missing file, spawn failure or unexpected exit codes give the empty
"no comments" result; exit 0 gives the empty result; exit 2 surfaces the
subprocess's stderr. -/
def checkSpecContract (optCliPath resolvedCliPath syncPath : Option String)
    (existsF : String → Bool) (sp : SpawnOutcome) : CheckResult :=
  match (optCliPath.orElse fun _ => resolvedCliPath).orElse
      fun _ => syncPath with
  | none => ⟨false, ""⟩
  | some p =>
    if existsF p then
      match sp with
      | .exited 0 _ _ => ⟨false, ""⟩
      | .exited 2 _ stderrText => ⟨true, stderrText⟩
      | _ => ⟨false, ""⟩
    else ⟨false, ""⟩

/-- `PlatformInfo` from src/src/downloader.ts lines 18-22. -/
structure PlatformInfo where
  os : String
  arch : String
  ext : String
deriving DecidableEq, Repr

/-- `PLATFORM_MAP` from src/src/downloader.ts lines 24-30. -/
def PLATFORM_MAP : List (String × PlatformInfo) :=
  [("darwin-arm64", ⟨"darwin", "arm64", "tar.gz"⟩),
   ("darwin-x64", ⟨"darwin", "amd64", "tar.gz"⟩),
   ("linux-arm64", ⟨"linux", "arm64", "tar.gz"⟩),
   ("linux-x64", ⟨"linux", "amd64", "tar.gz"⟩),
   ("win32-x64", ⟨"windows", "amd64", "zip"⟩)]

/-- Environment of the downloader: `XDG_CACHE_HOME`, the home directory,
`process.platform`, `process.arch`, and the version read from the
comment-checker package metadata when installed. -/
structure DlEnv where
  xdgCacheHome : Option String
  home : String
  platform : String
  arch : String
  pkgVersion : Option String

/-- `getCacheDir` from downloader.ts lines 32-36; `path.join` is
modelled as slash concatenation, and the JS `||` falls back when the
environment variable is unset or empty. -/
def getCacheDir (env : DlEnv) : String :=
  let base :=
    match env.xdgCacheHome with
    | some s => if s.isEmpty then env.home ++ "/.cache" else s
    | none => env.home ++ "/.cache"
  base ++ "/opencode-comments-plugin/bin"

/-- `getBinaryName` from downloader.ts lines 38-40. -/
def getBinaryName (env : DlEnv) : String :=
  if env.platform == "win32" then "comment-checker.exe" else "comment-checker"

/-- The full path of the cached executable. -/
def cachedBinaryFullPath (env : DlEnv) : String :=
  getCacheDir env ++ "/" ++ getBinaryName env

/-- `getCachedBinaryPath` from downloader.ts lines 42-45; `fs` is the set
of paths existing on disk. -/
def getCachedBinaryPath (env : DlEnv) (fs : List String) : Option String :=
  if fs.contains (cachedBinaryFullPath env) then some (cachedBinaryFullPath env)
  else none

/-- `getPackageVersion` from downloader.ts lines 47-55: the installed
package's version when resolvable, else the fixed fallback "0.7.0". -/
def getPackageVersion (pkgVersion : Option String) : String :=
  pkgVersion.getD "0.7.0"

/-- The release asset name built in downloader.ts line 112. -/
def assetName (version : String) (info : PlatformInfo) : String :=
  "comment-checker_v" ++ version ++ "_" ++ info.os ++ "_" ++ info.arch
    ++ "." ++ info.ext

/-- Outcome of the `fetch` of the release asset: non-success HTTP status
or connection error (which throws), or a successful body. -/
inductive FetchOutcome where
  | httpError
  | ok
deriving DecidableEq, Repr

/-- Outcome of the archive-extraction subprocess: exit 0 producing a list
of extracted paths, or non-zero exit (which throws) after writing some
incomplete paths. -/
inductive ExtractOutcome where
  | success (produced : List String)
  | failure (leftover : List String)
deriving DecidableEq, Repr

/-- Result of a `downloadCommentChecker` run: the returned path or
absence, the on-disk paths afterwards, and how many network requests
were made. -/
structure DlResult where
  result : Option String
  fs : List String
  fetches : Nat
deriving DecidableEq, Repr

/-- `downloadCommentChecker` from downloader.ts lines 92-158.  The disk
is the list `fs0` of existing paths; `fetch` and `extract` are the
outcomes of the network request and the extraction subprocess.  A thrown
error anywhere in the `try` block is caught and converted to `none`; in
particular, on extraction failure the archive-unlink step is skipped, so
the archive and any partial extraction output stay on disk. -/
def downloadCommentChecker (env : DlEnv) (fs0 : List String)
    (fetch : FetchOutcome) (extract : ExtractOutcome) : DlResult :=
  match List.lookup (env.platform ++ "-" ++ env.arch) PLATFORM_MAP with
  | none => ⟨none, fs0, 0⟩
  | some info =>
    let binaryPath := cachedBinaryFullPath env
    if fs0.contains binaryPath then ⟨some binaryPath, fs0, 0⟩
    else
      let version := getPackageVersion env.pkgVersion
      let archivePath := getCacheDir env ++ "/" ++ assetName version info
      match fetch with
      | .httpError => ⟨none, fs0, 1⟩
      | .ok =>
        let fs1 := archivePath :: fs0
        match extract with
        | .failure leftover => ⟨none, leftover ++ fs1, 1⟩
        | .success produced =>
          let fs2 := produced ++ fs1
          let fs3 :=
            if fs2.contains archivePath then
              List.filter (fun q => q != archivePath) fs2
            else fs2
          ⟨some binaryPath, fs3, 1⟩

/-- `ensureCommentCheckerBinary` from downloader.ts lines 160-168. -/
def ensureCommentCheckerBinary (env : DlEnv) (fs0 : List String)
    (fetch : FetchOutcome) (extract : ExtractOutcome) : DlResult :=
  match getCachedBinaryPath env fs0 with
  | some p => ⟨some p, fs0, 0⟩
  | none => downloadCommentChecker env fs0 fetch extract

/-- Module state of the resolver in part_001 lines 50-51: the memoised
`resolvedCliPath`, the single in-flight/settled `initPromise` (as the id
of the resolution it belongs to), its settled value once resolution
completes, and a counter of resolutions actually started.  The runtime
is single-threaded, so the synchronous prefix of `getCommentCheckerPath`
(the null checks and the assignment of `initPromise`) executes
atomically between suspension points; each such prefix is one step. -/
structure ResolverState where
  resolvedCliPath : Option String
  initPromise : Option Nat
  promiseValue : Option (Option String)
  started : Nat
deriving DecidableEq, Repr

/-- State at module load: nothing resolved, no promise, nothing started. -/
def initialResolverState : ResolverState := ⟨none, none, none, 0⟩

/-- What one caller of `getCommentCheckerPath` gets back: an immediately
available cached path, or the shared promise it will await. -/
inductive CallOutcome where
  | cached (p : String)
  | awaitPromise (pid : Nat)
deriving DecidableEq, Repr

/-- The atomic synchronous prefix of `getCommentCheckerPath` (part_001
lines 53-83): return the memoised path if set; else join an existing
`initPromise`; else create the promise (starting one resolution) and
await it. -/
def getPathCall (s : ResolverState) : CallOutcome × ResolverState :=
  match s.resolvedCliPath with
  | some p => (.cached p, s)
  | none =>
    match s.initPromise with
    | some pid => (.awaitPromise pid, s)
    | none =>
      (.awaitPromise s.started,
       { s with initPromise := some s.started, started := s.started + 1 })

/-- `startBackgroundInit` from part_001 lines 89-97: a no-op when a
promise already exists, else it runs `getCommentCheckerPath` for its
side effect. -/
def startBackgroundInit (s : ResolverState) : ResolverState :=
  match s.initPromise with
  | some _ => s
  | none => (getPathCall s).2

/-- Completion of the in-flight resolution with outcome `v` (the tail of
the async closure, part_001 lines 62-80): the promise settles at `v`,
and `resolvedCliPath` is assigned only when a path was found. -/
def completeResolution (s : ResolverState) (v : Option String) :
    ResolverState :=
  { s with
    promiseValue := some v
    resolvedCliPath :=
      match v with
      | some p => some p
      | none => s.resolvedCliPath }

/-- The value a caller eventually observes: a cached path immediately,
or the settled value of the promise it awaited (`none` while pending). -/
def observe (s : ResolverState) (o : CallOutcome) : Option (Option String) :=
  match o with
  | .cached p => some (some p)
  | .awaitPromise _ => s.promiseValue

/-- `n` sequential caller steps (the event loop serialises the atomic
prefixes of concurrent callers in some order; by symmetry the order is
immaterial, so they are iterated). -/
def runCalls : Nat → ResolverState → List CallOutcome × ResolverState
  | 0, s => ([], s)
  | n + 1, s =>
    let os := runCalls n (getPathCall s).2
    ((getPathCall s).1 :: os.1, os.2)

-- Helper lemmas about association-list lookup.

theorem lookup_filter_ne (m : PendingMap) (k : String) :
    List.lookup k (List.filter (fun e => e.1 != k) m) = none := by
  induction m with
  | nil => rfl
  | cons hd tl ih =>
    by_cases h : hd.1 = k
    · simp [List.filter, h, ih]
    · have hb : (hd.1 != k) = true := by simp [bne, h]
      have hk : (k == hd.1) = false := by simp [h]; exact fun hh => h hh.symm
      simp [List.filter, hb, List.lookup, hk, ih]

theorem lookup_set (m : PendingMap) (k : String) (v : PendingCall) :
    List.lookup k (mapSet m k v) = some v := by
  simp [mapSet, List.lookup]

/-- Taking from a table whose head entry is `(c, v)` yields `v`, and a
second take of `c` is absent. -/
theorem take_cons_twice (m : PendingMap) (c : String) (v : PendingCall) :
    (mapTake ((c, v) :: m) c).1 = some v ∧
    (mapTake (mapTake ((c, v) :: m) c).2 c).1 = none := by
  constructor
  · simp [mapTake, List.lookup]
  · simp [mapTake, List.lookup, mapDelete, lookup_filter_ne]

theorem lookup_eq_none_of_keys_ne (m : PendingMap) (k : String)
    (h : ∀ e ∈ m, e.1 ≠ k) : List.lookup k m = none := by
  induction m with
  | nil => rfl
  | cons hd tl ih =>
    have hk : (k == hd.1) = false := by
      simp only [beq_eq_false_iff_ne, ne_eq]
      exact fun hh => (h hd (by simp)) hh.symm
    simp only [List.lookup, hk]
    exact ih (fun e he => h e (by simp [he]))

theorem lookup_filter_of_keep (m : PendingMap)
    (p : String × PendingCall → Bool) (k : String) (v : PendingCall)
    (h : List.lookup k m = some v) (hp : p (k, v) = true) :
    List.lookup k (List.filter p m) = some v := by
  induction m with
  | nil => simp [List.lookup] at h
  | cons hd tl ih =>
    by_cases hk : k = hd.1
    · have hkb : (k == hd.1) = true := by simp [hk]
      have hv : hd.2 = v := by
        simpa [List.lookup, hkb] using h
      have hhd : hd = (k, v) := by
        cases hd with
        | mk a b => simp_all
      rw [hhd]
      simp [List.filter, hp, List.lookup]
    · have hkb : (k == hd.1) = false := by simp [hk]
      have htl : List.lookup k tl = some v := by
        simpa [List.lookup, hkb] using h
      cases hhd : p hd with
      | true => simp [List.filter, hhd, List.lookup, hkb, ih htl]
      | false => simp [List.filter, hhd, ih htl]

theorem lookup_filter_of_drop (m : PendingMap)
    (p : String × PendingCall → Bool) (k : String) (v : PendingCall)
    (hnd : (m.map Prod.fst).Nodup) (h : List.lookup k m = some v)
    (hp : p (k, v) = false) : List.lookup k (List.filter p m) = none := by
  induction m with
  | nil => rfl
  | cons hd tl ih =>
    have hnd' : (tl.map Prod.fst).Nodup := (List.nodup_cons.mp hnd).2
    by_cases hk : k = hd.1
    · have hkb : (k == hd.1) = true := by simp [hk]
      have hv : hd.2 = v := by
        simpa [List.lookup, hkb] using h
      have hhd : hd = (k, v) := by
        cases hd with
        | mk a b => simp_all
      have hmem : hd.1 ∉ tl.map Prod.fst := (List.nodup_cons.mp hnd).1
      have hne : ∀ e ∈ List.filter p tl, e.1 ≠ k := by
        intro e he heq
        apply hmem
        rw [← hk, ← heq]
        exact List.mem_map_of_mem Prod.fst (List.mem_of_mem_filter he)
      rw [hhd]
      simp only [List.filter, hp]
      exact lookup_eq_none_of_keys_ne _ _ hne
    · have hkb : (k == hd.1) = false := by simp [hk]
      have htl : List.lookup k tl = some v := by
        simpa [List.lookup, hkb] using h
      cases hhd : p hd with
      | true => simp [List.filter, hhd, List.lookup, hkb, ih hnd' htl]
      | false => simp [List.filter, hhd, ih hnd' htl]

/-- Claim C1: after the before-hook records `v` for call id `c`, and no
sweep past the TTL intervenes (either no sweep at all, or a sweep at a
time within the TTL of the entry), the first take in the after-hook
returns `v` and removes the entry, and a second take returns absent. -/
theorem record_take_exactly_once (m : PendingMap) (c : String)
    (v : PendingCall) (now : Int)
    (hage : ¬(now - v.timestamp > PENDING_CALL_TTL)) :
    ((mapTake (mapSet m c v) c).1 = some v ∧
      (mapTake (mapTake (mapSet m c v) c).2 c).1 = none) ∧
    ((mapTake (cleanupOldPendingCalls now (mapSet m c v)) c).1 = some v ∧
      (mapTake
        (mapTake (cleanupOldPendingCalls now (mapSet m c v)) c).2 c).1 =
        none) := by
  have hkeep : (!(decide (now - v.timestamp > PENDING_CALL_TTL))) = true := by
    simp [hage]
  have hclean :
      cleanupOldPendingCalls now (mapSet m c v) =
        (c, v) :: List.filter
          (fun e => !(decide (now - e.2.timestamp > PENDING_CALL_TTL)))
          (List.filter (fun e => e.1 != c) m) := by
    simp [cleanupOldPendingCalls, mapSet, List.filter, hkeep]
  refine ⟨⟨?_, ?_⟩, ?_, ?_⟩
  · exact (take_cons_twice (List.filter (fun e => e.1 != c) m) c v).1
  · exact (take_cons_twice (List.filter (fun e => e.1 != c) m) c v).2
  · rw [hclean]
    exact (take_cons_twice _ c v).1
  · rw [hclean]
    exact (take_cons_twice _ c v).2

/-- Witness for C1 at a concrete recorded call and sweep time. -/
theorem record_take_exactly_once_check :
    ¬((1000 : Int) -
        (PendingCall.mk "/a.ts" none none none none "write" "s1" 0).timestamp
        > PENDING_CALL_TTL) ∧
    (mapTake
      (mapSet []
        "call1" (PendingCall.mk "/a.ts" none none none none "write" "s1" 0))
      "call1").1 =
      some (PendingCall.mk "/a.ts" none none none none "write" "s1" 0) :=
  ⟨by decide,
    (record_take_exactly_once []
      "call1" (PendingCall.mk "/a.ts" none none none none "write" "s1" 0)
      1000 (by decide)).1.1⟩

/-- Claim C5: a sweep at time `now` removes every entry whose age
strictly exceeds the TTL, so a later take of its call id is absent, and
keeps every entry whose age does not exceed the TTL. -/
theorem sweep_removes_expired (m : PendingMap) (now : Int) (k : String)
    (v : PendingCall) (hnd : (m.map Prod.fst).Nodup)
    (h : List.lookup k m = some v) :
    (now - v.timestamp > PENDING_CALL_TTL →
      (mapTake (cleanupOldPendingCalls now m) k).1 = none) ∧
    (¬(now - v.timestamp > PENDING_CALL_TTL) →
      List.lookup k (cleanupOldPendingCalls now m) = some v) := by
  constructor
  · intro hold
    have hlook := lookup_filter_of_drop m
      (fun e => !(decide (now - e.2.timestamp > PENDING_CALL_TTL))) k v hnd h
      (by simp [hold])
    simp [mapTake, cleanupOldPendingCalls, hlook]
  · intro hyoung
    exact lookup_filter_of_keep m
      (fun e => !(decide (now - e.2.timestamp > PENDING_CALL_TTL))) k v h
      (by simp [hyoung])

/-- Witness for C5 at a one-entry table swept after the entry expired. -/
theorem sweep_removes_expired_check :
    List.lookup "k"
        [("k", PendingCall.mk "/a.ts" none none none none "write" "s1" 0)] =
      some (PendingCall.mk "/a.ts" none none none none "write" "s1" 0) ∧
    (mapTake
      (cleanupOldPendingCalls 70000
        [("k", PendingCall.mk "/a.ts" none none none none "write" "s1" 0)])
      "k").1 = none :=
  ⟨rfl,
    (sweep_removes_expired
      [("k", PendingCall.mk "/a.ts" none none none none "write" "s1" 0)]
      70000 "k" (PendingCall.mk "/a.ts" none none none none "write" "s1" 0)
      (by simp) rfl).1 (by decide)⟩

/-- Claim C6: when the matched pending call exists and the tool output
starts with "error" (case-insensitively) or contains a known failure
substring, the checker is never invoked and the output is unchanged. -/
theorem tool_failure_skips_checker (patterns : List String)
    (cliPath : Option String) (existsF : String → Bool)
    (checker : PendingCall → CheckResult) (m : PendingMap)
    (callID out : String) (pc : PendingCall)
    (hpc : List.lookup callID m = some pc)
    (hfail : strStartsWith (strToLower out) "error" = true ∨
      patterns.any (fun pat => strIncludes (strToLower out) pat) = true) :
    (afterHook patterns cliPath existsF checker m callID out).invokedChecker
        = false ∧
    (afterHook patterns cliPath existsF checker m callID out).newOutput
        = out := by
  have hft : isToolFailure patterns out = true := by
    cases hfail with
    | inl h => simp [isToolFailure, h]
    | inr h => simp [isToolFailure, h]
  constructor <;> simp [afterHook, hpc, hft]

/-- Witness for C6: output "Error: permission denied" skips the check. -/
theorem tool_failure_skips_checker_check :
    strStartsWith (strToLower "Error: permission denied") "error" = true ∧
    (afterHook ["failed"] (some "/bin/cc") (fun _ => true)
      (fun _ => ⟨true, "warn"⟩)
      [("c", PendingCall.mk "/a.ts" none none none none "write" "s1" 0)]
      "c" "Error: permission denied").invokedChecker = false :=
  ⟨by decide,
    (tool_failure_skips_checker ["failed"] (some "/bin/cc") (fun _ => true)
      (fun _ => ⟨true, "warn"⟩)
      [("c", PendingCall.mk "/a.ts" none none none none "write" "s1" 0)]
      "c" "Error: permission denied"
      (PendingCall.mk "/a.ts" none none none none "write" "s1" 0)
      rfl (Or.inl (by decide))).1⟩

/-- Claim C8: in an after-hook run that reaches the checker, the tool
output is appended with a blank line and the message exactly when the
result has comments and a non-empty message; otherwise it is unchanged. -/
theorem output_appended_only_on_comments (patterns : List String)
    (p : String) (existsF : String → Bool)
    (checker : PendingCall → CheckResult) (m : PendingMap)
    (callID out : String) (pc : PendingCall)
    (hpc : List.lookup callID m = some pc)
    (hfail : isToolFailure patterns out = false)
    (hp : p.isEmpty = false) (hex : existsF p = true) :
    (afterHook patterns (some p) existsF checker m callID out).invokedChecker
        = true ∧
    ((checker pc).hasComments = true ∧ (checker pc).message ≠ "" →
      (afterHook patterns (some p) existsF checker m callID out).newOutput =
        out ++ "\n\n" ++ (checker pc).message) ∧
    ((checker pc).hasComments = false ∨ (checker pc).message = "" →
      (afterHook patterns (some p) existsF checker m callID out).newOutput =
        out) := by
  refine ⟨?_, ?_, ?_⟩
  · cases hc : ((checker pc).hasComments && !((checker pc).message == "")) with
    | true => simp [afterHook, hpc, hfail, hp, hex, hc]
    | false => simp [afterHook, hpc, hfail, hp, hex, hc]
  · rintro ⟨h1, h2⟩
    have hc : ((checker pc).hasComments && !((checker pc).message == "")) =
        true := by
      simp [h1, h2]
    simp [afterHook, hpc, hfail, hp, hex, hc]
  · intro h
    have hc : ((checker pc).hasComments && !((checker pc).message == "")) =
        false := by
      cases h with
      | inl h1 => simp [h1]
      | inr h2 => simp [h2]
    simp [afterHook, hpc, hfail, hp, hex, hc]

/-- Witness for C8: a checker that finds a comment appends its message. -/
theorem output_appended_only_on_comments_check :
    isToolFailure ["failed"] "ok" = false ∧
    (afterHook ["failed"] (some "/bin/cc") (fun _ => true)
      (fun _ => ⟨true, "New comment detected"⟩)
      [("c", PendingCall.mk "/a.ts" none none none none "write" "s1" 0)]
      "c" "ok").newOutput = "ok" ++ "\n\n" ++ "New comment detected" :=
  ⟨by decide,
    (output_appended_only_on_comments ["failed"] "/bin/cc" (fun _ => true)
      (fun _ => ⟨true, "New comment detected"⟩)
      [("c", PendingCall.mk "/a.ts" none none none none "write" "s1" 0)]
      "c" "ok"
      (PendingCall.mk "/a.ts" none none none none "write" "s1" 0)
      rfl (by decide) (by decide) rfl).2.1 ⟨rfl, by decide⟩⟩

/-- Claim C10: a recognized mutating tool whose arguments carry no file
path records nothing, and the matching after-hook (for a call id with no
recorded entry) leaves the table and output unchanged and never invokes
the checker. -/
theorem no_filepath_no_record (toolNames patterns : List String)
    (cliPath : Option String) (existsF : String → Bool)
    (checker : PendingCall → CheckResult) (m : PendingMap)
    (tool sessionID callID out : String) (args : ToolCallArgs) (now : Int)
    (hrec : toolNames.contains (strToLower tool) = true)
    (h1 : args.filePath = none) (h2 : args.file_path = none)
    (h3 : args.path = none)
    (hfresh : List.lookup callID m = none) :
    beforeHook toolNames m tool sessionID callID args now = m ∧
    afterHook patterns cliPath existsF checker
        (beforeHook toolNames m tool sessionID callID args now) callID out =
      ⟨m, out, false⟩ := by
  have hb : beforeHook toolNames m tool sessionID callID args now = m := by
    simp [beforeHook, hrec, h1, h2, h3, Option.orElse]
  refine ⟨hb, ?_⟩
  rw [hb]
  simp [afterHook, hfresh]

/-- Witness for C10: a Write call with no path argument records nothing. -/
theorem no_filepath_no_record_check :
    (["write", "edit", "multiedit"].contains (strToLower "Write")) = true ∧
    beforeHook ["write", "edit", "multiedit"] [] "Write" "s1" "c1"
      (ToolCallArgs.mk none none none none none none none none none) 0 =
      [] :=
  ⟨by decide,
    (no_filepath_no_record ["write", "edit", "multiedit"] [] none
      (fun _ => false) (fun _ => ⟨false, ""⟩) [] "Write" "s1" "c1" "done"
      (ToolCallArgs.mk none none none none none none none none none) 0
      (by decide) rfl rfl rfl rfl).1⟩

/-- Claim C3: the check invoker equals the spec's fail-soft exit-code
contract on every input: absent or missing binary, spawn failure and
unexpected exit codes give the empty no-comments result, exit 0 gives
the empty result, and exit 2 surfaces the subprocess stderr. -/
theorem check_invoker_contract
    (optCliPath resolvedCliPath syncPath : Option String)
    (existsF : String → Bool) (sp : SpawnOutcome) :
    runCommentChecker optCliPath resolvedCliPath syncPath existsF sp =
      checkSpecContract optCliPath resolvedCliPath syncPath existsF sp := by
  unfold runCommentChecker checkSpecContract
  cases hbp : (optCliPath.orElse fun _ => resolvedCliPath).orElse
      fun _ => syncPath with
  | none => rfl
  | some p =>
    cases hex : existsF p with
    | false => simp [hex]
    | true =>
      cases sp with
      | spawnError => simp [hex]
      | exited code stdoutText stderrText =>
        by_cases h0 : code = 0
        · simp [hex, h0]
        · by_cases h2 : code = 2
          · simp [hex, h0, h2]
          · simp [hex, h0, h2]

theorem runCalls_stable_await (m : Nat) (s : ResolverState) (pid : Nat)
    (hr : s.resolvedCliPath = none) (hp : s.initPromise = some pid) :
    runCalls m s = (List.replicate m (CallOutcome.awaitPromise pid), s) := by
  induction m with
  | zero => rfl
  | succ n ih =>
    have hcall : getPathCall s = (CallOutcome.awaitPromise pid, s) := by
      simp [getPathCall, hr, hp]
    simp [runCalls, hcall, ih, List.replicate]

theorem runCalls_stable_cached (m : Nat) (s : ResolverState) (p : String)
    (hr : s.resolvedCliPath = some p) :
    runCalls m s = (List.replicate m (CallOutcome.cached p), s) := by
  induction m with
  | zero => rfl
  | succ n ih =>
    have hcall : getPathCall s = (CallOutcome.cached p, s) := by
      simp [getPathCall, hr]
    simp [runCalls, hcall, ih, List.replicate]

/-- Claim C2: from the initial state, any positive number of concurrent
callers of `getCommentCheckerPath` starts exactly one resolution, all of
them await the same single promise, completing that resolution with any
outcome `v` (a path or absent) makes every caller observe `v`, and any
number of later calls still starts no further resolution and observes
the same cached outcome; `startBackgroundInit` shares the same single
flight. -/
theorem single_flight_resolution (n m : Nat) (v : Option String) :
    (runCalls (n + 1) initialResolverState).2.started = 1 ∧
    (runCalls (n + 1) initialResolverState).1 =
      List.replicate (n + 1) (CallOutcome.awaitPromise 0) ∧
    (∀ o ∈ (runCalls (n + 1) initialResolverState).1,
      observe (completeResolution (runCalls (n + 1) initialResolverState).2 v)
        o = some v) ∧
    (runCalls m
      (completeResolution (runCalls (n + 1) initialResolverState).2
        v)).2.started = 1 ∧
    (∀ o ∈ (runCalls m
        (completeResolution (runCalls (n + 1) initialResolverState).2 v)).1,
      observe (runCalls m
        (completeResolution (runCalls (n + 1) initialResolverState).2 v)).2
        o = some v) ∧
    (runCalls n (startBackgroundInit initialResolverState)).2.started = 1 := by
  have hstep : getPathCall initialResolverState =
      (CallOutcome.awaitPromise 0,
        ResolverState.mk none (some 0) none 1) := rfl
  have htail := runCalls_stable_await n
    (ResolverState.mk none (some 0) none 1) 0 rfl rfl
  have h1 : runCalls (n + 1) initialResolverState =
      (List.replicate (n + 1) (CallOutcome.awaitPromise 0),
        ResolverState.mk none (some 0) none 1) := by
    simp [runCalls, hstep, htail, List.replicate]
  have hbg : startBackgroundInit initialResolverState =
      ResolverState.mk none (some 0) none 1 := rfl
  have hs : (runCalls (n + 1) initialResolverState).2 =
      ResolverState.mk none (some 0) none 1 := by rw [h1]
  refine ⟨by rw [h1], by rw [h1], ?_, ?_, ?_, ?_⟩
  · intro o ho
    rw [h1] at ho
    have ho' : o = CallOutcome.awaitPromise 0 := by simpa using ho
    subst ho'
    rw [hs]
    cases v <;> rfl
  · rw [hs]
    cases v with
    | none =>
      rw [runCalls_stable_await m _ 0 rfl rfl]
      rfl
    | some p =>
      rw [runCalls_stable_cached m _ p rfl]
      rfl
  · intro o ho
    rw [hs] at ho ⊢
    cases v with
    | none =>
      rw [runCalls_stable_await m _ 0 rfl rfl] at ho ⊢
      obtain ⟨-, ho'⟩ : ¬m = 0 ∧ o = CallOutcome.awaitPromise 0 := by
        simpa using ho
      subst ho'
      rfl
    | some p =>
      rw [runCalls_stable_cached m _ p rfl] at ho ⊢
      obtain ⟨-, ho'⟩ : ¬m = 0 ∧ o = CallOutcome.cached p := by
        simpa using ho
      subst ho'
      rfl
  · rw [hbg]
    rw [runCalls_stable_await n (ResolverState.mk none (some 0) none 1) 0
      rfl rfl]

/-- Claim C4: when the expected executable is already present in the
cache directory (and the platform is supported, so a download could
otherwise begin), `downloadCommentChecker` and
`ensureCommentCheckerBinary` make zero network requests, leave the disk
unchanged, and return the existing path. -/
theorem cached_binary_skips_download (env : DlEnv) (fs0 : List String)
    (fetch : FetchOutcome) (extract : ExtractOutcome) (info : PlatformInfo)
    (hsup : List.lookup (env.platform ++ "-" ++ env.arch) PLATFORM_MAP =
      some info)
    (hex : fs0.contains (cachedBinaryFullPath env) = true) :
    downloadCommentChecker env fs0 fetch extract =
      ⟨some (cachedBinaryFullPath env), fs0, 0⟩ ∧
    ensureCommentCheckerBinary env fs0 fetch extract =
      ⟨some (cachedBinaryFullPath env), fs0, 0⟩ := by
  have hex' : cachedBinaryFullPath env ∈ fs0 := by simpa using hex
  constructor
  · simp [downloadCommentChecker, hsup, hex']
  · simp [ensureCommentCheckerBinary, getCachedBinaryPath, hex']

/-- Witness for C4 on a Linux environment with the binary cached. -/
theorem cached_binary_skips_download_check :
    List.lookup ("linux" ++ "-" ++ "x64") PLATFORM_MAP =
      some (PlatformInfo.mk "linux" "amd64" "tar.gz") ∧
    downloadCommentChecker (DlEnv.mk none "/home/u" "linux" "x64" none)
      ["/home/u/.cache/opencode-comments-plugin/bin/comment-checker"]
      FetchOutcome.ok (ExtractOutcome.success []) =
      ⟨some "/home/u/.cache/opencode-comments-plugin/bin/comment-checker",
        ["/home/u/.cache/opencode-comments-plugin/bin/comment-checker"],
        0⟩ :=
  ⟨rfl,
    (cached_binary_skips_download (DlEnv.mk none "/home/u" "linux" "x64" none)
      ["/home/u/.cache/opencode-comments-plugin/bin/comment-checker"]
      FetchOutcome.ok (ExtractOutcome.success [])
      (PlatformInfo.mk "linux" "amd64" "tar.gz") rfl (by decide)).1⟩

/-- Claim C7: "darwin-arm64" maps to the asset suffix
darwin_arm64.tar.gz, "win32-x64" maps to windows_amd64.zip, and any
platform key outside the map makes the download return absent with zero
network requests. -/
theorem platform_map_and_unsupported (v : String) (env : DlEnv)
    (fs0 : List String) (fetch : FetchOutcome) (extract : ExtractOutcome)
    (hunsup : List.lookup (env.platform ++ "-" ++ env.arch) PLATFORM_MAP =
      none) :
    List.lookup "darwin-arm64" PLATFORM_MAP =
      some (PlatformInfo.mk "darwin" "arm64" "tar.gz") ∧
    assetName v (PlatformInfo.mk "darwin" "arm64" "tar.gz") =
      "comment-checker_v" ++ (v ++ "_darwin_arm64.tar.gz") ∧
    List.lookup "win32-x64" PLATFORM_MAP =
      some (PlatformInfo.mk "windows" "amd64" "zip") ∧
    assetName v (PlatformInfo.mk "windows" "amd64" "zip") =
      "comment-checker_v" ++ (v ++ "_windows_amd64.zip") ∧
    downloadCommentChecker env fs0 fetch extract = ⟨none, fs0, 0⟩ := by
  refine ⟨rfl, ?_, rfl, ?_, ?_⟩
  · simp only [assetName, String.append_assoc]
    rfl
  · simp only [assetName, String.append_assoc]
    rfl
  · simp [downloadCommentChecker, hunsup]

/-- Witness for C7 on an unsupported platform key. -/
theorem platform_map_and_unsupported_check :
    List.lookup ("freebsd" ++ "-" ++ "x64") PLATFORM_MAP = none ∧
    downloadCommentChecker (DlEnv.mk none "/h" "freebsd" "x64" none) []
      FetchOutcome.ok (ExtractOutcome.success []) = ⟨none, [], 0⟩ :=
  ⟨rfl,
    (platform_map_and_unsupported "0.7.0"
      (DlEnv.mk none "/h" "freebsd" "x64" none) [] FetchOutcome.ok
      (ExtractOutcome.success []) rfl).2.2.2.2⟩

/-- Counterexample to C9 as stated: on a failed extraction the archive
file is NOT removed — the extraction error is thrown before the unlink
step, so the archive stays on disk while the download returns absent. -/
theorem extraction_failure_keeps_archive :
    (downloadCommentChecker (DlEnv.mk none "/home/u" "linux" "x64" none) []
        FetchOutcome.ok (ExtractOutcome.failure [])).result = none ∧
    (downloadCommentChecker (DlEnv.mk none "/home/u" "linux" "x64" none) []
        FetchOutcome.ok (ExtractOutcome.failure [])).fs.contains
      ("/home/u/.cache/opencode-comments-plugin/bin/comment-checker_v0.7.0_linux_amd64.tar.gz")
      = true := by
  constructor
  · rfl
  · rfl

/-- Claim C9 as amended: if archive extraction exits non-zero during
download, the download aborts and returns absent after its single
network request, and no cleanup runs on that path: the downloaded
archive file and any partially-written extraction output both remain in
the cache directory. -/
theorem extraction_failure_aborts (env : DlEnv) (fs0 leftover : List String)
    (info : PlatformInfo)
    (hsup : List.lookup (env.platform ++ "-" ++ env.arch) PLATFORM_MAP =
      some info)
    (hnc : fs0.contains (cachedBinaryFullPath env) = false) :
    (downloadCommentChecker env fs0 FetchOutcome.ok
        (ExtractOutcome.failure leftover)).result = none ∧
    (downloadCommentChecker env fs0 FetchOutcome.ok
        (ExtractOutcome.failure leftover)).fetches = 1 ∧
    (getCacheDir env ++ "/" ++
        assetName (getPackageVersion env.pkgVersion) info) ∈
      (downloadCommentChecker env fs0 FetchOutcome.ok
        (ExtractOutcome.failure leftover)).fs ∧
    ∀ q ∈ leftover,
      q ∈ (downloadCommentChecker env fs0 FetchOutcome.ok
        (ExtractOutcome.failure leftover)).fs := by
  have hnc' : cachedBinaryFullPath env ∉ fs0 := by simpa using hnc
  refine ⟨?_, ?_, ?_, ?_⟩
  · simp [downloadCommentChecker, hsup, hnc']
  · simp [downloadCommentChecker, hsup, hnc']
  · simp [downloadCommentChecker, hsup, hnc']
  · intro q hq
    simp [downloadCommentChecker, hsup, hnc', hq]

/-- Witness for the amended C9 on a Linux environment with an empty
cache and one partial extraction output left behind. -/
theorem extraction_failure_aborts_check :
    List.lookup ("linux" ++ "-" ++ "x64") PLATFORM_MAP =
      some (PlatformInfo.mk "linux" "amd64" "tar.gz") ∧
    (downloadCommentChecker (DlEnv.mk none "/home/u" "linux" "x64" none) []
        FetchOutcome.ok (ExtractOutcome.failure ["/home/u/partial.out"])
      ).result = none :=
  ⟨rfl,
    (extraction_failure_aborts (DlEnv.mk none "/home/u" "linux" "x64" none)
      [] ["/home/u/partial.out"] (PlatformInfo.mk "linux" "amd64" "tar.gz")
      rfl rfl).1⟩
